import Mathlib

/-!
Verification of the cookie library (src/index.ts and src/typed.ts) against its
natural-language specification.

Conventions of the shallow embedding:
- A JavaScript string is modelled as a `List Nat` of Unicode scalar values
  (well-formed strings; the claims never exercise lone surrogates).
- JavaScript exceptions are modelled with `Except` / `Option` result types.
- Platform builtins used by the source (`btoa`, `atob`, `TextEncoder`,
  `TextDecoder`, `JSON.parse`, `JSON.stringify`, `String.prototype.split`,
  `Map`) are modelled in the `Js` namespace.
-/

/-- Char codes of a Lean string literal; used to write concrete JavaScript strings. -/
def strCodes (s : String) : List Nat := s.toList.map Char.toNat

deriving instance DecidableEq for Except

namespace Js

/-- Model of JavaScript `Map.prototype.get`: the value stored at the matching key. -/
def mapGet (m : List (List Nat × List Nat)) (k : List Nat) : Option (List Nat) :=
  (m.find? (fun p => p.1 == k)).map (fun p => p.2)

/-- Model of JavaScript `Map.prototype.set`: overwrite in place when the key exists
(keeping the insertion position), otherwise append at the end. -/
def mapSet (m : List (List Nat × List Nat)) (k v : List Nat) : List (List Nat × List Nat) :=
  if m.any (fun p => p.1 == k) then m.map (fun p => if p.1 == k then (p.1, v) else p)
  else m ++ [(k, v)]

/-- Model of `String.prototype.split` with the two-character separator used by
`parseCookies`, namely semicolon-space: leftmost, non-overlapping occurrences. -/
def splitSemiSpace (acc : List Nat) : List Nat → List (List Nat)
  | [] => [acc.reverse]
  | 59 :: 32 :: rest => acc.reverse :: splitSemiSpace [] rest
  | c :: rest => splitSemiSpace (c :: acc) rest

/-- One scalar value encoded by the `TextEncoder` builtin: the standard 1- to
4-byte UTF-8 encoding. -/
def utf8EncodeChar (c : Nat) : List Nat :=
  if c < 0x80 then [c]
  else if c < 0x800 then [0xC0 + c / 64, 0x80 + c % 64]
  else if c < 0x10000 then [0xE0 + c / 4096, 0x80 + c / 64 % 64, 0x80 + c % 64]
  else [0xF0 + c / 262144, 0x80 + c / 4096 % 64, 0x80 + c / 64 % 64, 0x80 + c % 64]

/-- Model of the `TextEncoder` builtin (`utf8Encoder.encode`): UTF-8 bytes of a
well-formed string. -/
def utf8Encode : List Nat → List Nat
  | [] => []
  | c :: rest => utf8EncodeChar c ++ utf8Encode rest

/-- A UTF-8 continuation byte. -/
def isUtf8Cont (b : Nat) : Bool := 0x80 ≤ b && b < 0xC0

/-- Byte-at-a-time UTF-8 decoding state machine: `need` is the number of
continuation bytes still expected for the current sequence and `acc` the value
accumulated so far.  A lead byte opens a sequence, each continuation byte shifts
six more bits in, and the completed value is emitted.  A malformed byte emits
U+FFFD (the resynchronisation of the builtin decoder is approximated, which no
claim depends on). -/
def utf8DecodeGo (need acc : Nat) : List Nat → List Nat
  | [] => if need = 0 then [] else [0xFFFD]
  | b :: rest =>
    if need = 0 then
      if b < 0x80 then b :: utf8DecodeGo 0 0 rest
      else if b < 0xC0 then 0xFFFD :: utf8DecodeGo 0 0 rest
      else if b < 0xE0 then utf8DecodeGo 1 (b - 0xC0) rest
      else if b < 0xF0 then utf8DecodeGo 2 (b - 0xE0) rest
      else utf8DecodeGo 3 (b - 0xF0) rest
    else
      if isUtf8Cont b then
        if need = 1 then (acc * 64 + (b - 0x80)) :: utf8DecodeGo 0 0 rest
        else utf8DecodeGo (need - 1) (acc * 64 + (b - 0x80)) rest
      else 0xFFFD :: utf8DecodeGo 0 0 rest

/-- Model of the `TextDecoder` builtin (`utf8Decoder.decode`): on valid UTF-8 it
inverts `utf8Encode`. -/
def utf8Decode (s : List Nat) : List Nat := utf8DecodeGo 0 0 s

/-- Char code of base64 digit `n` in the standard alphabet `A-Za-z0-9+/`. -/
def base64Char (n : Nat) : Nat :=
  if n < 26 then 65 + n
  else if n < 52 then 97 + (n - 26)
  else if n < 62 then 48 + (n - 52)
  else if n == 62 then 43
  else 47

/-- Base64 digit of a char code in the standard alphabet (0 on other chars,
which `atob` rejects before decoding). -/
def base64Index (c : Nat) : Nat :=
  if 65 ≤ c && c ≤ 90 then c - 65
  else if 97 ≤ c && c ≤ 122 then c - 97 + 26
  else if 48 ≤ c && c ≤ 57 then c - 48 + 52
  else if c == 43 then 62
  else if c == 47 then 63
  else 0

/-- A char code of the standard base64 alphabet (padding excluded). -/
def isBase64Char (c : Nat) : Bool :=
  (65 ≤ c && c ≤ 90) || (97 ≤ c && c ≤ 122) || (48 ≤ c && c ≤ 57) || c == 43 || c == 47

/-- Model of the `btoa` builtin on a byte list: standard padded base64. -/
def btoa : List Nat → List Nat
  | [] => []
  | [b0] => [base64Char (b0 / 4), base64Char (b0 % 4 * 16), 61, 61]
  | [b0, b1] =>
    [base64Char (b0 / 4), base64Char (b0 % 4 * 16 + b1 / 16), base64Char (b1 % 16 * 4), 61]
  | b0 :: b1 :: b2 :: rest =>
    base64Char (b0 / 4) :: base64Char (b0 % 4 * 16 + b1 / 16) ::
      base64Char (b1 % 16 * 4 + b2 / 64) :: base64Char (b2 % 64) :: btoa rest

/-- Decoding loop of the `atob` builtin after validation: four base64 digits give
three bytes, a final group of two or three digits gives one or two bytes. -/
def atobRun : List Nat → List Nat
  | c0 :: c1 :: c2 :: c3 :: rest =>
    (base64Index c0 * 4 + base64Index c1 / 16) ::
      (base64Index c1 % 16 * 16 + base64Index c2 / 4) ::
        (base64Index c2 % 4 * 64 + base64Index c3) :: atobRun rest
  | [c0, c1] => [base64Index c0 * 4 + base64Index c1 / 16]
  | [c0, c1, c2] =>
    [base64Index c0 * 4 + base64Index c1 / 16, base64Index c1 % 16 * 16 + base64Index c2 / 4]
  | _ => []

/-- Strip one or two trailing `=` padding chars. -/
def stripBase64Pad (s : List Nat) : List Nat :=
  match s.reverse with
  | 61 :: 61 :: rest => rest.reverse
  | 61 :: rest => rest.reverse
  | _ => s

/-- Model of the `atob` builtin (forgiving-base64 decode, whitespace handling
omitted): strip padding when the length is a multiple of four, then fail —
JavaScript throws, modelled as `none` — when a char is outside the alphabet or
the length remainder is 1; otherwise decode. -/
def atob (s : List Nat) : Option (List Nat) :=
  let t := if s.length % 4 == 0 then stripBase64Pad s else s
  if t.all isBase64Char && t.length % 4 != 1 then some (atobRun t) else none

/-- JSON-compatible JavaScript values, the domain the typed layer documents for
its schemas.  A numeric literal is carried as its decimal source text, the
shallow embedding of the decimal form of the number. -/
inductive Json where
  | null
  | bool (b : Bool)
  | num (text : List Nat)
  | str (s : List Nat)
  | arr (elems : List Json)
  | obj (fields : List (List Nat × Json))

/-- Lowercase hex digit char code. -/
def hexDigit (n : Nat) : Nat := if n < 10 then 48 + n else 97 + (n - 10)

/-- One char of a JSON string literal as emitted by `JSON.stringify`. -/
def escapeJsonChar (c : Nat) : List Nat :=
  if c == 34 then [92, 34]
  else if c == 92 then [92, 92]
  else if c == 8 then [92, 98]
  else if c == 9 then [92, 116]
  else if c == 10 then [92, 110]
  else if c == 12 then [92, 102]
  else if c == 13 then [92, 114]
  else if c < 32 then [92, 117, 48, 48, hexDigit (c / 16), hexDigit (c % 16)]
  else [c]

/-- A whole JSON string literal, quotes included. -/
def escapeJsonString (s : List Nat) : List Nat :=
  34 :: s.foldr (fun c acc => escapeJsonChar c ++ acc) [34]

mutual

/-- Model of the `JSON.stringify` builtin on JSON-compatible values. -/
def jsonStringify : Json → List Nat
  | .null => strCodes "null"
  | .bool true => strCodes "true"
  | .bool false => strCodes "false"
  | .num text => text
  | .str s => escapeJsonString s
  | .arr elems => 91 :: (jsonStringifyElems elems ++ [93])
  | .obj fields => 123 :: (jsonStringifyFields fields ++ [125])

/-- Comma-joined stringified array elements. -/
def jsonStringifyElems : List Json → List Nat
  | [] => []
  | x :: rest =>
    jsonStringify x ++ (if rest.isEmpty then [] else [44]) ++ jsonStringifyElems rest

/-- Comma-joined stringified object members. -/
def jsonStringifyFields : List (List Nat × Json) → List Nat
  | [] => []
  | (k, v) :: rest =>
    escapeJsonString k ++ 58 :: jsonStringify v ++
      (if rest.isEmpty then [] else [44]) ++ jsonStringifyFields rest

end

/-- JSON whitespace. -/
def isJsonWs (c : Nat) : Bool := c == 32 || c == 9 || c == 10 || c == 13

/-- Drop leading JSON whitespace. -/
def skipJsonWs : List Nat → List Nat
  | [] => []
  | c :: rest => if isJsonWs c then skipJsonWs rest else c :: rest

/-- A decimal digit char code. -/
def isDigit (c : Nat) : Bool := 48 ≤ c && c ≤ 57

/-- Value of a hex digit char code. -/
def hexVal (c : Nat) : Option Nat :=
  if 48 ≤ c && c ≤ 57 then some (c - 48)
  else if 97 ≤ c && c ≤ 102 then some (c - 97 + 10)
  else if 65 ≤ c && c ≤ 70 then some (c - 65 + 10)
  else none

/-- Parse the body of a JSON string literal after its opening quote; produce the
decoded chars and the input after the closing quote. -/
def parseJsonStringBody (fuel : Nat) (s : List Nat) : Option (List Nat × List Nat) :=
  match fuel with
  | 0 => none
  | fuel + 1 =>
    match s with
    | [] => none
    | c :: rest =>
      if c == 34 then some ([], rest)
      else if c == 92 then
        match rest with
        | [] => none
        | e :: rest2 =>
          if e == 34 || e == 92 || e == 47 then
            (parseJsonStringBody fuel rest2).map (fun p => (e :: p.1, p.2))
          else if e == 98 then (parseJsonStringBody fuel rest2).map (fun p => (8 :: p.1, p.2))
          else if e == 116 then (parseJsonStringBody fuel rest2).map (fun p => (9 :: p.1, p.2))
          else if e == 110 then (parseJsonStringBody fuel rest2).map (fun p => (10 :: p.1, p.2))
          else if e == 102 then (parseJsonStringBody fuel rest2).map (fun p => (12 :: p.1, p.2))
          else if e == 114 then (parseJsonStringBody fuel rest2).map (fun p => (13 :: p.1, p.2))
          else if e == 117 then
            match rest2 with
            | h1 :: h2 :: h3 :: h4 :: rest3 =>
              match hexVal h1, hexVal h2, hexVal h3, hexVal h4 with
              | some v1, some v2, some v3, some v4 =>
                (parseJsonStringBody fuel rest3).map
                  (fun p => ((v1 * 4096 + v2 * 256 + v3 * 16 + v4) :: p.1, p.2))
              | _, _, _, _ => none
            | _ => none
          else none
      else if c < 32 then none
      else (parseJsonStringBody fuel rest).map (fun p => (c :: p.1, p.2))

/-- Parse an optional JSON fraction part, returning its source text. -/
def parseJsonFrac : List Nat → Option (List Nat × List Nat)
  | 46 :: r =>
    let ds := r.takeWhile isDigit
    if ds.isEmpty then none else some (46 :: ds, r.dropWhile isDigit)
  | s => some ([], s)

/-- Parse an optional JSON exponent part, returning its source text. -/
def parseJsonExp : List Nat → Option (List Nat × List Nat)
  | [] => some ([], [])
  | c :: r =>
    if c == 101 || c == 69 then
      let signAndRest : List Nat × List Nat :=
        match r with
        | 43 :: r3 => ([43], r3)
        | 45 :: r3 => ([45], r3)
        | _ => ([], r)
      let ds := signAndRest.2.takeWhile isDigit
      if ds.isEmpty then none
      else some (c :: (signAndRest.1 ++ ds), signAndRest.2.dropWhile isDigit)
    else some ([], c :: r)

/-- Parse a JSON numeric literal, capturing its source text. -/
def parseJsonNumber (s : List Nat) : Option (Json × List Nat) :=
  let signAndRest : List Nat × List Nat :=
    match s with
    | 45 :: r => ([45], r)
    | _ => ([], s)
  let intDigits := signAndRest.2.takeWhile isDigit
  let s2 := signAndRest.2.dropWhile isDigit
  if intDigits.isEmpty then none
  else if intDigits.length > 1 && intDigits.headD 0 == 48 then none
  else
    match parseJsonFrac s2 with
    | none => none
    | some (frac, s3) =>
      match parseJsonExp s3 with
      | none => none
      | some (ex, s4) => some (.num (signAndRest.1 ++ intDigits ++ frac ++ ex), s4)

mutual

/-- Parse one JSON value (fuel-based recursion; the callers supply ample fuel). -/
def parseJsonValue (fuel : Nat) (s : List Nat) : Option (Json × List Nat) :=
  match fuel with
  | 0 => none
  | fuel + 1 =>
    match skipJsonWs s with
    | 110 :: 117 :: 108 :: 108 :: rest => some (.null, rest)
    | 116 :: 114 :: 117 :: 101 :: rest => some (.bool true, rest)
    | 102 :: 97 :: 108 :: 115 :: 101 :: rest => some (.bool false, rest)
    | 34 :: rest => (parseJsonStringBody fuel rest).map (fun p => (.str p.1, p.2))
    | 91 :: rest =>
      (match skipJsonWs rest with
      | 93 :: rest2 => some (.arr [], rest2)
      | _ => (parseJsonElems fuel rest).map (fun p => (.arr p.1, p.2)))
    | 123 :: rest =>
      (match skipJsonWs rest with
      | 125 :: rest2 => some (.obj [], rest2)
      | _ => (parseJsonMembers fuel rest).map (fun p => (.obj p.1, p.2)))
    | t => parseJsonNumber t

/-- Parse the comma-separated elements of a nonempty JSON array up to `]`. -/
def parseJsonElems (fuel : Nat) (s : List Nat) : Option (List Json × List Nat) :=
  match fuel with
  | 0 => none
  | fuel + 1 =>
    match parseJsonValue fuel s with
    | none => none
    | some (v, rest) =>
      match skipJsonWs rest with
      | 44 :: rest2 => (parseJsonElems fuel rest2).map (fun p => (v :: p.1, p.2))
      | 93 :: rest2 => some ([v], rest2)
      | _ => none

/-- Parse the comma-separated members of a nonempty JSON object up to the
closing brace. -/
def parseJsonMembers (fuel : Nat) (s : List Nat) :
    Option (List (List Nat × Json) × List Nat) :=
  match fuel with
  | 0 => none
  | fuel + 1 =>
    match skipJsonWs s with
    | 34 :: rest =>
      (match parseJsonStringBody fuel rest with
      | none => none
      | some (key, rest2) =>
        match skipJsonWs rest2 with
        | 58 :: rest3 =>
          (match parseJsonValue fuel rest3 with
          | none => none
          | some (v, rest4) =>
            match skipJsonWs rest4 with
            | 44 :: rest5 => (parseJsonMembers fuel rest5).map (fun p => ((key, v) :: p.1, p.2))
            | 125 :: rest5 => some ([(key, v)], rest5)
            | _ => none)
        | _ => none)
    | _ => none

end

/-- Model of the `JSON.parse` builtin: parse one value and require only trailing
whitespace after it; `none` models a thrown `SyntaxError`. -/
def jsonParse (s : List Nat) : Option Json :=
  match parseJsonValue (s.length + 1) s with
  | some (j, rest) => if (skipJsonWs rest).isEmpty then some j else none
  | none => none

end Js

namespace Cookie

/-- One character of the name-validation character class `[!#-+-.\d^-z|~]` with the
case-insensitive flag, from `assertValidCookieName` in src/index.ts.  The class is
literally: `!`, the range `#`-`+` (which contains `#$%&()*+` and the apostrophe),
`-`, `.`, the digits, the range `^`-`z` (caret, underscore, backtick, lowercase
letters), `|`, `~`; the `i` flag folds uppercase letters onto `a`-`z`. -/
def isCookieNameChar (c : Nat) : Bool :=
  let d := if 65 ≤ c && c ≤ 90 then c + 32 else c
  d == 0x21 || (0x23 ≤ d && d ≤ 0x2B) || d == 0x2D || d == 0x2E ||
    (0x30 ≤ d && d ≤ 0x39) || (0x5E ≤ d && d ≤ 0x7A) || d == 0x7C || d == 0x7E

/-- The test `/^[!#-+-.\d^-z|~]+$/i.test(name)`: one or more class characters. -/
def validCookieName (name : List Nat) : Bool :=
  !name.isEmpty && name.all isCookieNameChar

/-- The cookie-octet class `[!#-+--:<-[\]-~]` of the value-validation regex in
`setCookie`: `!`, `#`-`+`, `-`-`:`, `<`-`[`, `]`-`~` (printable ASCII without
the double quote, comma, semicolon and backslash). -/
def isCookieOctet (c : Nat) : Bool :=
  c == 0x21 || (0x23 ≤ c && c ≤ 0x2B) || (0x2D ≤ c && c ≤ 0x3A) ||
    (0x3C ≤ c && c ≤ 0x5B) || (0x5D ≤ c && c ≤ 0x7E)

/-- First alternative of the value regex.  In `/^(?:A*)|(?:"A*")$/` the alternation
binds looser than the anchors, so the first alternative is `^(?:A*)`: it matches
exactly when some (possibly empty) initial run of cookie-octets exists. -/
def valueRegexFirstAlt (s : List Nat) : Bool :=
  (List.range (s.length + 1)).any (fun n => (s.take n).all isCookieOctet)

/-- A whole string of the shape `"A*"`: a double quote, cookie-octets, a double quote. -/
def isQuotedOctetRun : List Nat → Bool
  | 34 :: rest => !rest.isEmpty && rest.getLast? == some 34 && rest.dropLast.all isCookieOctet
  | _ => false

/-- Second alternative of the value regex, `(?:"A*")$`: it matches exactly when some
suffix of the string is a quoted cookie-octet run ending at the end of the string. -/
def valueRegexSecondAlt (s : List Nat) : Bool :=
  (List.range (s.length + 1)).any (fun k => isQuotedOctetRun (s.drop k))

/-- The test `/^(?:[!#-+--:<-[\]-~]*)|(?:"[!#-+--:<-[\]-~]*")$/.test(value)` from
`setCookie` in src/index.ts: an unanchored test succeeds when either alternative
matches somewhere in the string. -/
def cookieValueRegexTest (s : List Nat) : Bool :=
  valueRegexFirstAlt s || valueRegexSecondAlt s

/-- Written from the claim wording, for comparison with the implementation: one
character of the legal cookie-name token grammar, printable ASCII (0x21 to 0x7E)
excluding the separators listed in the spec (parentheses, angle brackets, at sign,
comma, semicolon, colon, backslash, double quote, slash, square brackets, question
mark, equals sign, curly brackets); space and control characters fall outside the
printable range. -/
def specCookieNameChar (c : Nat) : Bool :=
  (0x21 ≤ c && c ≤ 0x7E) &&
    !(c == 0x28 || c == 0x29 || c == 0x3C || c == 0x3E || c == 0x40 || c == 0x2C ||
      c == 0x3B || c == 0x3A || c == 0x5C || c == 0x22 || c == 0x2F || c == 0x5B ||
      c == 0x5D || c == 0x3F || c == 0x3D || c == 0x7B || c == 0x7D)

/-- The two `SyntaxError` kinds thrown by the codec. -/
inductive CookieError where
  | invalidCookieName
  | invalidCookieValue
deriving DecidableEq

/-- Embedding of `assertValidCookieName` from src/index.ts: throw a `SyntaxError`
when the name does not match the name regex. -/
def assertValidCookieName (name : List Nat) : Except CookieError Unit :=
  if !validCookieName name then .error .invalidCookieName else .ok ()

/-- Embedding of `parseCookies` from src/index.ts.  The argument is
`string | undefined | null`; `none` stands for both `undefined` and `null`.
The source guards the loop with `if (cookies)`, so the empty string (falsy)
is treated like an absent argument.  Each token of the semicolon-space split
is cut at its first `=` (char 61); a token without `=` is stored under the
empty-string name. -/
def parseCookies (cookies : Option (List Nat)) : List (List Nat × List Nat) :=
  match cookies with
  | none => []
  | some cs =>
    if cs.isEmpty then []
    else
      (Js.splitSemiSpace [] cs).foldl
        (fun m cookie =>
          match cookie.findIdx? (fun c => c == 61) with
          | none => Js.mapSet m [] cookie
          | some index => Js.mapSet m (cookie.take index) (cookie.drop (index + 1)))
        []

/-- The default attribute suffix of `setCookie`. -/
def defaultSetAttributes : List Nat := strCodes ";max-age=31536000;path=/;sameSite=lax"

/-- The expression `options?.attributes || defaultSetAttributes`: JavaScript `||`
falls through on an absent or empty (falsy) attributes string. -/
def attributesOrDefault : Option (List Nat) → List Nat
  | none => defaultSetAttributes
  | some a => if a.isEmpty then defaultSetAttributes else a

/-- Embedding of `setCookie` from src/index.ts: validate the name, test the value
against the value regex, and produce `name=value` followed by the attributes
or the default suffix. -/
def setCookie (name value : List Nat) (attributes : Option (List Nat)) :
    Except CookieError (List Nat) :=
  match assertValidCookieName name with
  | .error e => .error e
  | .ok _ =>
    if !cookieValueRegexTest value then .error .invalidCookieValue
    else .ok (name ++ [61] ++ value ++ attributesOrDefault attributes)

/-- The fixed suffix of `deleteCookie`. -/
def deleteAttributes : List Nat := strCodes "=;max-age=0;path=/;sameSite=lax"

/-- Embedding of `deleteCookie` from src/index.ts: validate the name and produce
the fixed immediate-expiry string. -/
def deleteCookie (name : List Nat) : Except CookieError (List Nat) :=
  match assertValidCookieName name with
  | .error e => .error e
  | .ok _ => .ok (name ++ deleteAttributes)

end Cookie

namespace Typed

/-- A Unicode scalar value: the per-char condition under which a scalar list
models a well-formed JavaScript string (a string drawn from the UTF-8 space). -/
def isScalarValue (c : Nat) : Bool := c < 0xD800 || (0xE000 ≤ c && c < 0x110000)

/-- A char of the base64url alphabet: letters, digits, dash, underscore. -/
def isBase64UrlChar (c : Nat) : Bool :=
  (65 ≤ c && c ≤ 90) || (97 ≤ c && c ≤ 122) || (48 ≤ c && c ≤ 57) || c == 45 || c == 95

/-- Char remapping of `encodeString` in src/typed.ts after padding removal:
`+` becomes `-` and `/` becomes `_`. -/
def encodeRemap (c : Nat) : Nat := if c == 43 then 45 else if c == 47 then 95 else c

/-- Inverse char remapping of `decodeString`: `-` becomes `+` and `_` becomes `/`. -/
def decodeRemap (c : Nat) : Nat := if c == 45 then 43 else if c == 95 then 47 else c

/-- Embedding of `encodeString` from src/typed.ts: UTF-8 encode, base64 encode,
remove every `=` and remap `+` to `-` and `/` to `_`. -/
def encodeString (s : List Nat) : List Nat :=
  (((Js.btoa (Js.utf8Encode s)).filter (fun c => c != 61)).map encodeRemap)

/-- Embedding of `decodeString` from src/typed.ts: remap `-` to `+` and `_` to `/`,
base64 decode with `atob` (which can throw, hence `Option`), UTF-8 decode. -/
def decodeString (s : List Nat) : Option (List Nat) :=
  (Js.atob (s.map decodeRemap)).map Js.utf8Decode

/-- Outcome of the `tryCatch` helper from the support library, as used in
`getCookie`: the computed value, or the caught exception object. -/
inductive Caught (α : Type) where
  | ok (v : α)
  | err
deriving DecidableEq

/-- Result of the Standard Schema `validate` call observed by src/typed.ts: a
`Promise` (asynchronous validation), a result carrying an issue list, or a
result carrying the validated value. -/
inductive ValidateResult (α : Type) where
  | promise
  | issues
  | value (v : α)

/-- Embedding of the `CookieOptions` record from src/typed.ts.  The `schema` field
is the pluggable Standard Schema contract, modelled as its synchronous `validate`
function from the `tryCatch` outcome to a validation result; the optional boolean
flags are modelled as `Bool` (an absent flag is falsy, like `false`). -/
structure CookieOptions (α : Type) where
  name : List Nat
  schema : Caught Js.Json → ValidateResult α
  attributes : Option (List Nat)
  rawName : Bool
  rawValue : Bool

/-- Embedding of `makeCookieOptions` from src/typed.ts: the identity builder. -/
def makeCookieOptions {α : Type} (options : CookieOptions α) : CookieOptions α := options

/-- The argument of the schema `validate` call in `getCookie`, namely
`tryCatch(() => JSON.parse(options.rawValue ? cookie : decodeString(cookie)))`:
a `decodeString` throw (from `atob`) or a `JSON.parse` throw is caught and
surfaces as the caught-exception value. -/
def tryParse (rawValue : Bool) (cookie : List Nat) : Caught Js.Json :=
  match (if rawValue then some cookie else decodeString cookie) with
  | none => .err
  | some text =>
    match Js.jsonParse text with
    | none => .err
    | some j => .ok j

/-- Embedding of `getCookie` from src/typed.ts: look the (optionally encoded) name
up in the parsed map; the `if (cookie)` guard skips an absent or empty entry; run
the schema `validate` on the `tryCatch` outcome; a `Promise` result or an issue
list is logged and swallowed (`undefined` is returned); otherwise the validated
value is returned. -/
def getCookie {α : Type} (cookies : List (List Nat × List Nat)) (options : CookieOptions α) :
    Option α :=
  match Js.mapGet cookies (if options.rawName then options.name else encodeString options.name) with
  | none => none
  | some cookie =>
    if cookie.isEmpty then none
    else
      match options.schema (tryParse options.rawValue cookie) with
      | .promise => none
      | .issues => none
      | .value v => some v

/-- Embedding of the typed `setCookie` from src/typed.ts: an `undefined` value
(here `none`) delegates to the codec `deleteCookie`; otherwise the JSON text of
the value (base64url encoded unless `rawValue`) goes through the codec
`setCookie` with the descriptor attributes. -/
def setCookie {α : Type} (options : CookieOptions α) (value : Option Js.Json) :
    Except Cookie.CookieError (List Nat) :=
  let name := if options.rawName then options.name else encodeString options.name
  match value with
  | none => Cookie.deleteCookie name
  | some v =>
    let json := Js.jsonStringify v
    Cookie.setCookie name (if options.rawValue then json else encodeString json)
      options.attributes

/-- Embedding of the typed `deleteCookie` from src/typed.ts. -/
def deleteCookie {α : Type} (options : CookieOptions α) : Except Cookie.CookieError (List Nat) :=
  Cookie.deleteCookie (if options.rawName then options.name else encodeString options.name)

end Typed

/-! Helper lemmas shared by the claim theorems. -/

/-- The first alternative of the value regex matches every string: the empty
initial run of cookie-octets is always available. -/
theorem valueRegexFirstAlt_eq_true (s : List Nat) : Cookie.valueRegexFirstAlt s = true := by
  unfold Cookie.valueRegexFirstAlt
  rw [List.any_eq_true]
  exact ⟨0, by simp [List.mem_range], by simp⟩

/-- Because of the alternation precedence, the value regex test accepts every string. -/
theorem cookieValueRegexTest_eq_true (s : List Nat) : Cookie.cookieValueRegexTest s = true := by
  simp [Cookie.cookieValueRegexTest, valueRegexFirstAlt_eq_true]

set_option maxRecDepth 4096 in
/-- The implemented name character class is the claimed token charset plus the two
parentheses (the regex range from `#` to `+` also contains 0x28 and 0x29). -/
theorem isCookieNameChar_eq (c : Nat) :
    Cookie.isCookieNameChar c = (Cookie.specCookieNameChar c || c == 40 || c == 41) := by
  rcases Nat.lt_or_ge c 256 with h | h
  · exact (by decide :
      ∀ x, x < 256 →
        Cookie.isCookieNameChar x = (Cookie.specCookieNameChar x || x == 40 || x == 41)) c h
  · have hno : (65 ≤ c && c ≤ 90) = false := by
      simp only [Bool.and_eq_false_iff, decide_eq_false_iff_not]
      omega
    have h1 : Cookie.isCookieNameChar c = false := by
      rw [Bool.eq_false_iff]
      intro hb
      simp only [Cookie.isCookieNameChar, hno, Bool.false_eq_true, if_false, Bool.or_eq_true,
        Bool.and_eq_true, beq_iff_eq, decide_eq_true_eq] at hb
      omega
    have h2 : Cookie.specCookieNameChar c = false := by
      rw [Bool.eq_false_iff]
      intro hb
      simp only [Cookie.specCookieNameChar, Bool.and_eq_true, decide_eq_true_eq] at hb
      omega
    have h3 : (c == 40) = false := by
      simp only [beq_eq_false_iff_ne, ne_eq]
      omega
    have h4 : (c == 41) = false := by
      simp only [beq_eq_false_iff_ne, ne_eq]
      omega
    rw [h1, h2, h3, h4]
    rfl

/-- The name test accepts exactly the nonempty names whose chars are in the claimed
token charset extended with the two parentheses. -/
theorem validCookieName_iff (name : List Nat) :
    Cookie.validCookieName name = true ↔
      name ≠ [] ∧ ∀ c ∈ name, (Cookie.specCookieNameChar c || c == 40 || c == 41) = true := by
  simp only [Cookie.validCookieName, Bool.and_eq_true, Bool.not_eq_true', List.all_eq_true,
    isCookieNameChar_eq, List.isEmpty_eq_false]

/-- C1: the value validation of the codec setCookie is unreachable.  The regex
alternation makes the test accept every string, setCookie never returns the
InvalidCookieValue error, and the spec example setCookie("a","bad;value")
returns an output string instead of failing. -/
theorem setCookie_invalidCookieValue_unreachable :
    (∀ value, Cookie.cookieValueRegexTest value = true) ∧
    (∀ name value attrs,
      Cookie.setCookie name value attrs = .error .invalidCookieName ∨
        Cookie.setCookie name value attrs =
          .ok (name ++ [61] ++ value ++ Cookie.attributesOrDefault attrs)) ∧
    Cookie.setCookie (strCodes "a") (strCodes "bad;value") none =
      .ok (strCodes "a=bad;value;max-age=31536000;path=/;sameSite=lax") := by
  refine ⟨cookieValueRegexTest_eq_true, ?_, by decide⟩
  intro name value attrs
  by_cases hv : Cookie.validCookieName name = true
  · right
    simp [Cookie.setCookie, Cookie.assertValidCookieName, hv, cookieValueRegexTest_eq_true]
  · left
    simp [Cookie.setCookie, Cookie.assertValidCookieName, hv]

/-- C4: parseCookies returns the empty mapping on an absent input; on a non-empty
string it folds the semicolon-space tokens into the map, cutting each token at its
first equals sign and keying a token without one under the empty name; a later
occurrence of a name overwrites the earlier value in place, keeping insertion
order, as the concrete examples show.  The operation is total (the embedding
returns a plain mapping, never an error). -/
theorem parseCookies_spec :
    Cookie.parseCookies none = [] ∧
    (∀ cs : List Nat, cs ≠ [] →
      Cookie.parseCookies (some cs) =
        (Js.splitSemiSpace [] cs).foldl
          (fun m cookie =>
            match cookie.findIdx? (fun c => c == 61) with
            | none => Js.mapSet m [] cookie
            | some index => Js.mapSet m (cookie.take index) (cookie.drop (index + 1))) []) ∧
    Cookie.parseCookies (some (strCodes "a=1; b=2")) =
      [(strCodes "a", strCodes "1"), (strCodes "b", strCodes "2")] ∧
    Cookie.parseCookies (some (strCodes "novalue")) = [([], strCodes "novalue")] ∧
    Cookie.parseCookies (some (strCodes "a=1; b=2; a=3")) =
      [(strCodes "a", strCodes "3"), (strCodes "b", strCodes "2")] := by
  refine ⟨rfl, ?_, by decide, by decide, by decide⟩
  intro cs h
  have he : cs.isEmpty = false := List.isEmpty_eq_false.mpr h
  simp [Cookie.parseCookies, he]

/-- C4 witness: the characterization applied to the concrete input a=1. -/
theorem parseCookies_spec_witness :
    Cookie.parseCookies (some (strCodes "a=1")) =
      (Js.splitSemiSpace [] (strCodes "a=1")).foldl
        (fun m cookie =>
          match cookie.findIdx? (fun c => c == 61) with
          | none => Js.mapSet m [] cookie
          | some index => Js.mapSet m (cookie.take index) (cookie.drop (index + 1))) [] :=
  parseCookies_spec.2.1 (strCodes "a=1") (by decide)

/-- C5 counterexample: the one-character name consisting of a left parenthesis is
outside the claimed token grammar, yet the codec accepts it: deleteCookie and
setCookie return output strings instead of raising InvalidCookieName. -/
theorem nameValidation_paren_counterexample :
    Cookie.specCookieNameChar 40 = false ∧
    Cookie.deleteCookie [40] = .ok (strCodes "(=;max-age=0;path=/;sameSite=lax") ∧
    Cookie.setCookie [40] (strCodes "1") none =
      .ok (strCodes "(=1;max-age=31536000;path=/;sameSite=lax") := by
  refine ⟨by decide, by decide, by decide⟩

/-- C5 amended: setCookie and deleteCookie raise InvalidCookieName exactly when the
name is not one or more characters drawn from the claimed charset extended with
the two parentheses (which the implemented character class also accepts), and
deleteCookie applies the same name validation as setCookie. -/
theorem nameValidation_exact (name value : List Nat) (attrs : Option (List Nat)) :
    (Cookie.setCookie name value attrs = .error .invalidCookieName ↔
      ¬(name ≠ [] ∧ ∀ c ∈ name, (Cookie.specCookieNameChar c || c == 40 || c == 41) = true)) ∧
    (Cookie.deleteCookie name = .error .invalidCookieName ↔
      ¬(name ≠ [] ∧ ∀ c ∈ name, (Cookie.specCookieNameChar c || c == 40 || c == 41) = true)) := by
  rw [← validCookieName_iff]
  by_cases hv : Cookie.validCookieName name = true
  · simp [Cookie.setCookie, Cookie.deleteCookie, Cookie.assertValidCookieName, hv,
      cookieValueRegexTest_eq_true]
  · simp [Cookie.setCookie, Cookie.deleteCookie, Cookie.assertValidCookieName, hv]

/-- C6 counterexample: parseCookies of the present-but-empty string is not the
claimed single-entry mapping from the empty name to the empty value. -/
theorem parseCookies_emptyString_counterexample :
    Cookie.parseCookies (some []) ≠ [([], [])] := by decide

/-- C6 amended: parseCookies of the empty string returns the empty mapping; the
truthiness guard on the argument treats the empty string like an absent input,
so the split-and-insert loop never runs. -/
theorem parseCookies_emptyString : Cookie.parseCookies (some []) = [] := by decide

/-- C7: with no attributes option, setCookie produces name=value followed by the
default suffix, a supplied attributes string starting with a semicolon is
appended verbatim in place of the default, and deleteCookie produces the fixed
immediate-expiry string, as on the concrete spec examples. -/
theorem setCookie_output_shape :
    Cookie.setCookie (strCodes "a") (strCodes "1") none =
      .ok (strCodes "a=1;max-age=31536000;path=/;sameSite=lax") ∧
    (∀ name value rest, Cookie.validCookieName name = true →
      Cookie.setCookie name value (some (59 :: rest)) =
        .ok (name ++ [61] ++ value ++ (59 :: rest))) ∧
    (∀ name, Cookie.validCookieName name = true →
      Cookie.deleteCookie name = .ok (name ++ strCodes "=;max-age=0;path=/;sameSite=lax")) ∧
    Cookie.deleteCookie (strCodes "a") = .ok (strCodes "a=;max-age=0;path=/;sameSite=lax") := by
  refine ⟨by decide, ?_, ?_, by decide⟩
  · intro name value rest hv
    simp [Cookie.setCookie, Cookie.assertValidCookieName, hv, cookieValueRegexTest_eq_true,
      Cookie.attributesOrDefault]
  · intro name hv
    simp [Cookie.deleteCookie, Cookie.assertValidCookieName, hv, Cookie.deleteAttributes]

/-- C7 witness: the general clauses applied to the concrete name a and a concrete
semicolon-led attributes string. -/
theorem setCookie_output_shape_witness :
    Cookie.validCookieName (strCodes "a") = true ∧
    Cookie.setCookie (strCodes "a") (strCodes "x") (some (59 :: strCodes "path=/tmp")) =
      .ok (strCodes "a" ++ [61] ++ strCodes "x" ++ (59 :: strCodes "path=/tmp")) ∧
    Cookie.deleteCookie (strCodes "a") =
      .ok (strCodes "a" ++ strCodes "=;max-age=0;path=/;sameSite=lax") :=
  ⟨by decide,
    setCookie_output_shape.2.1 (strCodes "a") (strCodes "x") (strCodes "path=/tmp") (by decide),
    setCookie_output_shape.2.2.1 (strCodes "a") (by decide)⟩

/-- C9: for every descriptor, the typed setCookie applied to the undefined value
produces exactly the typed deleteCookie output, both computing the same
name-encoding rule first; setting no value is deletion. -/
theorem typedSetCookie_undefined_eq_deleteCookie :
    ∀ (α : Type) (options : Typed.CookieOptions α),
      Typed.setCookie options none = Typed.deleteCookie options :=
  fun _ _ => rfl

/-- C10: with rawName unset and the empty-string name, the typed setCookie with a
defined value and the typed deleteCookie both raise InvalidCookieName, because
encodeString of the empty string is the empty string, which fails the one-or-more
characters name validation of the codec. -/
theorem typedEmptyName_raises :
    ∀ (α : Type) (options : Typed.CookieOptions α) (v : Js.Json),
      options.rawName = false → options.name = [] →
      Typed.setCookie options (some v) = .error .invalidCookieName ∧
      Typed.deleteCookie options = .error .invalidCookieName := by
  intro α options v hraw hname
  constructor
  · simp [Typed.setCookie, hraw, hname, Typed.encodeString, Js.utf8Encode, Js.btoa,
      Cookie.setCookie, Cookie.assertValidCookieName, Cookie.validCookieName]
  · simp [Typed.deleteCookie, hraw, hname, Typed.encodeString, Js.utf8Encode, Js.btoa,
      Cookie.deleteCookie, Cookie.assertValidCookieName, Cookie.validCookieName]

/-- C10 witness: a concrete descriptor with the empty name and an always-rejecting
schema, applied to the JSON null value. -/
theorem typedEmptyName_raises_witness :
    Typed.setCookie (⟨[], fun _ => .issues, none, false, false⟩ : Typed.CookieOptions Unit)
        (some Js.Json.null) = .error .invalidCookieName ∧
      Typed.deleteCookie (⟨[], fun _ => .issues, none, false, false⟩ : Typed.CookieOptions Unit) =
        .error .invalidCookieName :=
  typedEmptyName_raises Unit ⟨[], fun _ => .issues, none, false, false⟩ Js.Json.null rfl rfl

/-- C8 counterexample: a stored entry that is not valid JSON is caught and passed to
the synchronous schema; a schema accepting every input makes getCookie return the
caught failure as a value, not the absence signal the claim requires. -/
theorem getCookie_parseFailure_counterexample :
    Js.jsonParse (strCodes "x") = none ∧
    Typed.tryParse true (strCodes "x") = Typed.Caught.err ∧
    Typed.getCookie [(strCodes "k", strCodes "x")]
      (⟨strCodes "k", fun x => .value x, none, true, true⟩ :
        Typed.CookieOptions (Typed.Caught Js.Json)) ≠ none := by
  refine ⟨rfl, rfl, ?_⟩
  intro h
  have h2 : Typed.getCookie [(strCodes "k", strCodes "x")]
      (⟨strCodes "k", fun x => .value x, none, true, true⟩ :
        Typed.CookieOptions (Typed.Caught Js.Json)) = some Typed.Caught.err := rfl
  rw [h] at h2
  exact Option.noConfusion h2

/-- C8 amended: the typed getCookie never raises and returns the absence signal when
the computed lookup key is absent, when the stored entry is the empty string, and
when the schema reports issues or returns a promise on the tryCatch outcome — in
particular, when base64url decoding or JSON parsing of the stored value fails, the
caught failure is handed to the schema and absence is returned whenever the schema
rejects it. -/
theorem getCookie_absence :
    ∀ (α : Type) (cookies : List (List Nat × List Nat)) (options : Typed.CookieOptions α),
      (Js.mapGet cookies (if options.rawName then options.name
          else Typed.encodeString options.name) = none →
        Typed.getCookie cookies options = none) ∧
      (Js.mapGet cookies (if options.rawName then options.name
          else Typed.encodeString options.name) = some [] →
        Typed.getCookie cookies options = none) ∧
      (∀ cookie,
        Js.mapGet cookies (if options.rawName then options.name
          else Typed.encodeString options.name) = some cookie →
        (options.schema (Typed.tryParse options.rawValue cookie) = .issues ∨
          options.schema (Typed.tryParse options.rawValue cookie) = .promise) →
        Typed.getCookie cookies options = none) ∧
      (∀ cookie,
        Js.mapGet cookies (if options.rawName then options.name
          else Typed.encodeString options.name) = some cookie →
        Typed.tryParse options.rawValue cookie = .err →
        options.schema .err = .issues →
        Typed.getCookie cookies options = none) := by
  intro α cookies options
  refine ⟨?_, ?_, ?_, ?_⟩
  · intro h
    simp [Typed.getCookie, h]
  · intro h
    simp [Typed.getCookie, h]
  · intro cookie h hres
    by_cases hc : cookie.isEmpty
    · simp [Typed.getCookie, h, hc]
    · rcases hres with hres | hres <;> simp [Typed.getCookie, h, hc, hres]
  · intro cookie h herr hiss
    by_cases hc : cookie.isEmpty
    · simp [Typed.getCookie, h, hc]
    · simp [Typed.getCookie, h, hc, herr, hiss]

/-- C8 witness: the absent-key clause applied to the empty mapping and a concrete
descriptor. -/
theorem getCookie_absence_witness :
    Typed.getCookie [] (⟨strCodes "k", fun _ => .issues, none, true, true⟩ :
      Typed.CookieOptions Unit) = none :=
  (getCookie_absence Unit []
    (⟨strCodes "k", fun _ => .issues, none, true, true⟩ : Typed.CookieOptions Unit)).1 rfl

/-- Induction principle following the three-byte grouping of base64. -/
theorem byteThreeInduction {P : List Nat → Prop} (hNil : P []) (hOne : ∀ b, P [b])
    (hTwo : ∀ b c, P [b, c]) (hCons : ∀ b c d rest, P rest → P (b :: c :: d :: rest)) :
    ∀ l, P l
  | [] => hNil
  | [b] => hOne b
  | [b, c] => hTwo b c
  | b :: c :: d :: rest => hCons b c d rest (byteThreeInduction hNil hOne hTwo hCons rest)

set_option maxRecDepth 2048 in
/-- Facts about the base64 alphabet, checked digit by digit: no digit char is the
padding char, every digit char is in the alphabet, indexing inverts the digit
map, the base64url remapping round-trips, and the remapped char is in the
base64url alphabet, is a legal cookie-name char and a legal cookie-octet. -/
theorem base64Char_facts :
    ∀ n, n < 64 →
      (Js.base64Char n != 61) = true ∧
      Js.isBase64Char (Js.base64Char n) = true ∧
      Js.base64Index (Js.base64Char n) = n ∧
      Typed.decodeRemap (Typed.encodeRemap (Js.base64Char n)) = Js.base64Char n ∧
      Typed.isBase64UrlChar (Typed.encodeRemap (Js.base64Char n)) = true ∧
      Cookie.isCookieNameChar (Typed.encodeRemap (Js.base64Char n)) = true ∧
      Cookie.isCookieOctet (Typed.encodeRemap (Js.base64Char n)) = true := by
  decide

/-- Every char of a btoa output is the padding char or a base64 digit char. -/
theorem btoa_mem (bs : List Nat) :
    (∀ b ∈ bs, b < 256) → ∀ c ∈ Js.btoa bs, c = 61 ∨ ∃ n, n < 64 ∧ c = Js.base64Char n := by
  induction bs using byteThreeInduction with
  | hNil =>
    intro _ c hc
    simp [Js.btoa] at hc
  | hOne b =>
    intro hb c hc
    have hb0 : b < 256 := hb b (by simp)
    simp only [Js.btoa, List.mem_cons, List.not_mem_nil, or_false] at hc
    rcases hc with rfl | rfl | rfl | rfl
    · exact .inr ⟨b / 4, by omega, rfl⟩
    · exact .inr ⟨b % 4 * 16, by omega, rfl⟩
    · exact .inl rfl
    · exact .inl rfl
  | hTwo b c2 =>
    intro hb c hc
    have hb0 : b < 256 := hb b (by simp)
    have hb1 : c2 < 256 := hb c2 (by simp)
    simp only [Js.btoa, List.mem_cons, List.not_mem_nil, or_false] at hc
    rcases hc with rfl | rfl | rfl | rfl
    · exact .inr ⟨b / 4, by omega, rfl⟩
    · exact .inr ⟨b % 4 * 16 + c2 / 16, by omega, rfl⟩
    · exact .inr ⟨c2 % 16 * 4, by omega, rfl⟩
    · exact .inl rfl
  | hCons b c2 d rest ih =>
    intro hb c hc
    have hb0 : b < 256 := hb b (by simp)
    have hb1 : c2 < 256 := hb c2 (by simp)
    have hb2 : d < 256 := hb d (by simp)
    simp only [Js.btoa, List.mem_cons] at hc
    rcases hc with rfl | rfl | rfl | rfl | hc
    · exact .inr ⟨b / 4, by omega, rfl⟩
    · exact .inr ⟨b % 4 * 16 + c2 / 16, by omega, rfl⟩
    · exact .inr ⟨c2 % 16 * 4 + d / 64, by omega, rfl⟩
    · exact .inr ⟨d % 64, by omega, rfl⟩
    · exact ih (fun x hx => hb x (by simp [hx])) c hc

/-- Mapping a function that fixes every member is the identity. -/
theorem map_id_of_mem {l : List Nat} {f : Nat → Nat} (h : ∀ a ∈ l, f a = a) : l.map f = l := by
  induction l with
  | nil => rfl
  | cons a t ih => simp [h a (by simp), ih (fun x hx => h x (by simp [hx]))]

/-- Stripping base64 padding is the identity on a string without the padding char. -/
theorem stripBase64Pad_eq_self (l : List Nat) (h : (61 : Nat) ∉ l) :
    Js.stripBase64Pad l = l := by
  unfold Js.stripBase64Pad
  split
  · rename_i rest heq
    exact absurd (by rw [← List.mem_reverse, heq]; simp : (61 : Nat) ∈ l) h
  · rename_i rest heq
    exact absurd (by rw [← List.mem_reverse, heq]; simp : (61 : Nat) ∈ l) h
  · rfl

/-- Core base64 round trip: decoding the unpadded base64 digits of a byte list
recovers the bytes, and the unpadded length never has remainder 1. -/
theorem atobRun_btoa (bs : List Nat) :
    (∀ b ∈ bs, b < 256) →
      Js.atobRun ((Js.btoa bs).filter (fun c => c != 61)) = bs ∧
      ((Js.btoa bs).filter (fun c => c != 61)).length % 4 ≠ 1 := by
  induction bs using byteThreeInduction with
  | hNil =>
    intro _
    exact ⟨rfl, by decide⟩
  | hOne b =>
    intro hb
    have hb0 : b < 256 := hb b (by simp)
    have f0 := (base64Char_facts (b / 4) (by omega)).1
    have f1 := (base64Char_facts (b % 4 * 16) (by omega)).1
    have g0 := (base64Char_facts (b / 4) (by omega)).2.2.1
    have g1 := (base64Char_facts (b % 4 * 16) (by omega)).2.2.1
    simp only [Js.btoa, List.filter, f0, f1, show ((61 : Nat) != 61) = false by decide,
      Js.atobRun, g0, g1, List.length_cons, List.length_nil]
    refine ⟨?_, by omega⟩
    simp only [List.cons.injEq]
    exact ⟨by omega, trivial⟩
  | hTwo b c2 =>
    intro hb
    have hb0 : b < 256 := hb b (by simp)
    have hb1 : c2 < 256 := hb c2 (by simp)
    have f0 := (base64Char_facts (b / 4) (by omega)).1
    have f1 := (base64Char_facts (b % 4 * 16 + c2 / 16) (by omega)).1
    have f2 := (base64Char_facts (c2 % 16 * 4) (by omega)).1
    have g0 := (base64Char_facts (b / 4) (by omega)).2.2.1
    have g1 := (base64Char_facts (b % 4 * 16 + c2 / 16) (by omega)).2.2.1
    have g2 := (base64Char_facts (c2 % 16 * 4) (by omega)).2.2.1
    simp only [Js.btoa, List.filter, f0, f1, f2, show ((61 : Nat) != 61) = false by decide,
      Js.atobRun, g0, g1, g2, List.length_cons, List.length_nil]
    refine ⟨?_, by omega⟩
    simp only [List.cons.injEq]
    exact ⟨by omega, by omega, trivial⟩
  | hCons b c2 d rest ih =>
    intro hb
    have hb0 : b < 256 := hb b (by simp)
    have hb1 : c2 < 256 := hb c2 (by simp)
    have hb2 : d < 256 := hb d (by simp)
    have ihh := ih (fun x hx => hb x (by simp [hx]))
    have f0 := (base64Char_facts (b / 4) (by omega)).1
    have f1 := (base64Char_facts (b % 4 * 16 + c2 / 16) (by omega)).1
    have f2 := (base64Char_facts (c2 % 16 * 4 + d / 64) (by omega)).1
    have f3 := (base64Char_facts (d % 64) (by omega)).1
    have g0 := (base64Char_facts (b / 4) (by omega)).2.2.1
    have g1 := (base64Char_facts (b % 4 * 16 + c2 / 16) (by omega)).2.2.1
    have g2 := (base64Char_facts (c2 % 16 * 4 + d / 64) (by omega)).2.2.1
    have g3 := (base64Char_facts (d % 64) (by omega)).2.2.1
    simp only [Js.btoa, List.filter, f0, f1, f2, f3, Js.atobRun, g0, g1, g2, g3,
      List.length_cons]
    refine ⟨?_, ?_⟩
    · simp only [List.cons.injEq]
      exact ⟨by omega, by omega, by omega, ihh.1⟩
    · have := ihh.2
      omega

/-- Every char of the unpadded base64 digits of a byte list is a base64 digit char. -/
theorem filter_btoa_mem (bs : List Nat) (hb : ∀ b ∈ bs, b < 256) :
    ∀ c ∈ (Js.btoa bs).filter (fun c => c != 61), ∃ n, n < 64 ∧ c = Js.base64Char n := by
  intro c hc
  have hm := List.mem_filter.mp hc
  have hne : c ≠ 61 := by
    have := hm.2
    simpa using this
  rcases btoa_mem bs hb c hm.1 with h | h
  · exact absurd h hne
  · exact h

/-- The atob builtin inverts the unpadded base64 digits of a byte list. -/
theorem atob_filter_btoa (bs : List Nat) (hb : ∀ b ∈ bs, b < 256) :
    Js.atob ((Js.btoa bs).filter (fun c => c != 61)) = some bs := by
  have hno : (61 : Nat) ∉ (Js.btoa bs).filter (fun c => c != 61) := by
    intro h
    rcases filter_btoa_mem bs hb 61 h with ⟨n, hn, h61⟩
    have := (base64Char_facts n hn).1
    rw [← h61] at this
    simp at this
  have hall : ((Js.btoa bs).filter (fun c => c != 61)).all Js.isBase64Char = true := by
    rw [List.all_eq_true]
    intro c hc
    rcases filter_btoa_mem bs hb c hc with ⟨n, hn, rfl⟩
    exact (base64Char_facts n hn).2.1
  have hlen := (atobRun_btoa bs hb).2
  have hlenb : (((Js.btoa bs).filter (fun c => c != 61)).length % 4 != 1) = true := by
    simpa using hlen
  unfold Js.atob
  simp only [stripBase64Pad_eq_self _ hno, ite_self, hall, hlenb, Bool.and_self, if_true]
  exact congrArg some (atobRun_btoa bs hb).1

/-- The base64url remapping of encodeString is undone by the remapping of
decodeString on every unpadded base64 digit string. -/
theorem map_remap_filter (bs : List Nat) (hb : ∀ b ∈ bs, b < 256) :
    (((Js.btoa bs).filter (fun c => c != 61)).map Typed.encodeRemap).map Typed.decodeRemap
      = (Js.btoa bs).filter (fun c => c != 61) := by
  rw [List.map_map]
  apply map_id_of_mem
  intro a ha
  rcases filter_btoa_mem bs hb a ha with ⟨n, hn, rfl⟩
  exact (base64Char_facts n hn).2.2.2.1

/-- Every byte of the UTF-8 encoding of one scalar value fits in a byte. -/
theorem utf8EncodeChar_lt (c : Nat) (hc : c < 0x110000) :
    ∀ b ∈ Js.utf8EncodeChar c, b < 256 := by
  intro b hb
  unfold Js.utf8EncodeChar at hb
  by_cases h1 : c < 0x80
  · simp [h1] at hb
    omega
  · by_cases h2 : c < 0x800
    · simp [h1, h2] at hb
      rcases hb with rfl | rfl <;> omega
    · by_cases h3 : c < 0x10000
      · simp [h1, h2, h3] at hb
        rcases hb with rfl | rfl | rfl <;> omega
      · simp [h1, h2, h3] at hb
        rcases hb with rfl | rfl | rfl | rfl <;> omega

/-- Every byte of the UTF-8 encoding of a scalar list fits in a byte. -/
theorem utf8Encode_lt (s : List Nat) (h : ∀ c ∈ s, c < 0x110000) :
    ∀ b ∈ Js.utf8Encode s, b < 256 := by
  induction s with
  | nil => simp [Js.utf8Encode]
  | cons c rest ih =>
    intro b hb
    rw [Js.utf8Encode] at hb
    rcases List.mem_append.mp hb with h1 | h2
    · exact utf8EncodeChar_lt c (h c (by simp)) b h1
    · exact ih (fun x hx => h x (by simp [hx])) b h2

/-- Decoding the UTF-8 bytes of one scalar value in front of any tail recovers the
scalar and continues with the tail. -/
theorem utf8Decode_encodeChar (c : Nat) (hc : c < 0x110000) (tail : List Nat) :
    Js.utf8DecodeGo 0 0 (Js.utf8EncodeChar c ++ tail) = c :: Js.utf8DecodeGo 0 0 tail := by
  by_cases h1 : c < 0x80
  · rw [show Js.utf8EncodeChar c = [c] by simp [Js.utf8EncodeChar, h1]]
    simp [Js.utf8DecodeGo, h1]
  · by_cases h2 : c < 0x800
    · rw [show Js.utf8EncodeChar c = [0xC0 + c / 64, 0x80 + c % 64] by
        simp [Js.utf8EncodeChar, h1, h2]]
      have d1 : ¬ (0xC0 + c / 64 < 0x80) := by omega
      have d2 : ¬ (0xC0 + c / 64 < 0xC0) := by omega
      have d3 : 0xC0 + c / 64 < 0xE0 := by omega
      have hcont : Js.isUtf8Cont (0x80 + c % 64) = true := by
        simp only [Js.isUtf8Cont, Bool.and_eq_true, decide_eq_true_eq]
        omega
      simp [Js.utf8DecodeGo, d1, d2, d3, hcont]
      omega
    · by_cases h3 : c < 0x10000
      · rw [show Js.utf8EncodeChar c = [0xE0 + c / 4096, 0x80 + c / 64 % 64, 0x80 + c % 64] by
          simp [Js.utf8EncodeChar, h1, h2, h3]]
        have d1 : ¬ (0xE0 + c / 4096 < 0x80) := by omega
        have d2 : ¬ (0xE0 + c / 4096 < 0xC0) := by omega
        have d3 : ¬ (0xE0 + c / 4096 < 0xE0) := by omega
        have d4 : 0xE0 + c / 4096 < 0xF0 := by omega
        have hcont1 : Js.isUtf8Cont (0x80 + c / 64 % 64) = true := by
          simp only [Js.isUtf8Cont, Bool.and_eq_true, decide_eq_true_eq]
          omega
        have hcont2 : Js.isUtf8Cont (0x80 + c % 64) = true := by
          simp only [Js.isUtf8Cont, Bool.and_eq_true, decide_eq_true_eq]
          omega
        simp [Js.utf8DecodeGo, d1, d2, d3, d4, hcont1, hcont2]
        omega
      · rw [show Js.utf8EncodeChar c =
            [0xF0 + c / 262144, 0x80 + c / 4096 % 64, 0x80 + c / 64 % 64, 0x80 + c % 64] by
          simp [Js.utf8EncodeChar, h1, h2, h3]]
        have d1 : ¬ (0xF0 + c / 262144 < 0x80) := by omega
        have d2 : ¬ (0xF0 + c / 262144 < 0xC0) := by omega
        have d3 : ¬ (0xF0 + c / 262144 < 0xE0) := by omega
        have d4 : ¬ (0xF0 + c / 262144 < 0xF0) := by omega
        have hcont1 : Js.isUtf8Cont (0x80 + c / 4096 % 64) = true := by
          simp only [Js.isUtf8Cont, Bool.and_eq_true, decide_eq_true_eq]
          omega
        have hcont2 : Js.isUtf8Cont (0x80 + c / 64 % 64) = true := by
          simp only [Js.isUtf8Cont, Bool.and_eq_true, decide_eq_true_eq]
          omega
        have hcont3 : Js.isUtf8Cont (0x80 + c % 64) = true := by
          simp only [Js.isUtf8Cont, Bool.and_eq_true, decide_eq_true_eq]
          omega
        simp [Js.utf8DecodeGo, d1, d2, d3, d4, hcont1, hcont2, hcont3]
        omega

/-- The UTF-8 round trip of the TextEncoder and TextDecoder builtins on every
scalar list. -/
theorem utf8Decode_utf8Encode (s : List Nat) (h : ∀ c ∈ s, c < 0x110000) :
    Js.utf8Decode (Js.utf8Encode s) = s := by
  unfold Js.utf8Decode
  induction s with
  | nil => rfl
  | cons c rest ih =>
    rw [Js.utf8Encode, utf8Decode_encodeChar c (h c (by simp)),
      ih (fun x hx => h x (by simp [hx]))]

/-- A scalar value is a code point. -/
theorem isScalarValue_lt (c : Nat) (h : Typed.isScalarValue c = true) : c < 0x110000 := by
  simp only [Typed.isScalarValue, Bool.or_eq_true, Bool.and_eq_true, decide_eq_true_eq] at h
  omega

/-- C2: the typed layer round trip, decodeString of encodeString is the identity on
every well-formed string (decodeString returns the decoded string — `some` in the
embedding, where `none` would model a thrown decoding error). -/
theorem decodeString_encodeString (s : List Nat)
    (h : ∀ c ∈ s, Typed.isScalarValue c = true) :
    Typed.decodeString (Typed.encodeString s) = some s := by
  have hlt : ∀ c ∈ s, c < 0x110000 := fun c hc => isScalarValue_lt c (h c hc)
  have hb : ∀ b ∈ Js.utf8Encode s, b < 256 := utf8Encode_lt s hlt
  unfold Typed.decodeString Typed.encodeString
  rw [map_remap_filter (Js.utf8Encode s) hb, atob_filter_btoa (Js.utf8Encode s) hb]
  simp [utf8Decode_utf8Encode s hlt]

/-- C2 witness: the round trip evaluated on a concrete string with a one-byte, a
three-byte and a four-byte scalar. -/
theorem decodeString_encodeString_witness :
    (∀ c ∈ [104, 0x20AC, 0x1F600], Typed.isScalarValue c = true) ∧
    Typed.decodeString (Typed.encodeString [104, 0x20AC, 0x1F600]) =
      some [104, 0x20AC, 0x1F600] :=
  ⟨by decide, decodeString_encodeString [104, 0x20AC, 0x1F600] (by decide)⟩

/-- The UTF-8 encoding of one scalar is never empty. -/
theorem utf8EncodeChar_ne_nil (c : Nat) : Js.utf8EncodeChar c ≠ [] := by
  unfold Js.utf8EncodeChar
  split_ifs <;> simp

/-- The unpadded base64 digits of a nonempty byte list are nonempty. -/
theorem filter_btoa_ne_nil (bs : List Nat) (hbs : bs ≠ []) (hb : ∀ b ∈ bs, b < 256) :
    (Js.btoa bs).filter (fun c => c != 61) ≠ [] := by
  rcases bs with _ | ⟨b, rest⟩
  · exact absurd rfl hbs
  · have hb0 : b < 256 := hb b (by simp)
    have f0 := (base64Char_facts (b / 4) (by omega)).1
    rcases rest with _ | ⟨b1, rest2⟩
    · simp [Js.btoa, List.filter, f0]
    · rcases rest2 with _ | ⟨b2, rest3⟩
      · simp [Js.btoa, List.filter, f0]
      · simp [Js.btoa, List.filter, f0]

/-- encodeString maps nonempty well-formed strings to nonempty outputs. -/
theorem encodeString_ne_nil (s : List Nat) (hs : s ≠ []) (h : ∀ c ∈ s, c < 0x110000) :
    Typed.encodeString s ≠ [] := by
  have hbs : Js.utf8Encode s ≠ [] := by
    rcases s with _ | ⟨c, rest⟩
    · exact absurd rfl hs
    · rw [Js.utf8Encode]
      intro hnil
      rcases List.append_eq_nil.mp hnil with ⟨h1, _⟩
      exact utf8EncodeChar_ne_nil c h1
  have hfil := filter_btoa_ne_nil (Js.utf8Encode s) hbs (utf8Encode_lt s h)
  unfold Typed.encodeString
  intro hnil
  exact hfil (List.map_eq_nil_iff.mp hnil)

/-- C3 counterexample: encodeString of the empty string is the empty string, and the
codec name validation rejects it (a name needs one or more characters), against the
claim that every encoded output is accepted by the name validation. -/
theorem encodeString_empty_counterexample :
    Typed.encodeString [] = [] ∧ Cookie.validCookieName (Typed.encodeString []) = false :=
  ⟨rfl, rfl⟩

/-- C3 amended: every char of every encodeString output lies in the base64url
alphabet (letters, digits, dash, underscore — never an equals sign, a plus, a
slash or a non-ASCII byte) and is both a legal cookie-name char and a legal
cookie-octet; the output of every nonempty input is nonempty and accepted by the
codec name validation; and every output passes the codec value test. -/
theorem encodeString_cookieSafe :
    (∀ s, (∀ c ∈ s, Typed.isScalarValue c = true) →
      ∀ c ∈ Typed.encodeString s,
        Typed.isBase64UrlChar c = true ∧ Cookie.isCookieNameChar c = true ∧
          Cookie.isCookieOctet c = true) ∧
    (∀ s, s ≠ [] → (∀ c ∈ s, Typed.isScalarValue c = true) →
      Cookie.validCookieName (Typed.encodeString s) = true) ∧
    (∀ s, Cookie.cookieValueRegexTest (Typed.encodeString s) = true) := by
  have hmem : ∀ s : List Nat, (∀ c ∈ s, c < 0x110000) →
      ∀ c ∈ Typed.encodeString s, ∃ n, n < 64 ∧ c = Typed.encodeRemap (Js.base64Char n) := by
    intro s h c hc
    unfold Typed.encodeString at hc
    rcases List.mem_map.mp hc with ⟨d, hd, rfl⟩
    rcases filter_btoa_mem (Js.utf8Encode s) (utf8Encode_lt s h) d hd with ⟨n, hn, rfl⟩
    exact ⟨n, hn, rfl⟩
  refine ⟨?_, ?_, fun s => cookieValueRegexTest_eq_true _⟩
  · intro s h c hc
    rcases hmem s (fun c hc => isScalarValue_lt c (h c hc)) c hc with ⟨n, hn, rfl⟩
    have hf := base64Char_facts n hn
    exact ⟨hf.2.2.2.2.1, hf.2.2.2.2.2.1, hf.2.2.2.2.2.2⟩
  · intro s hs h
    have hlt : ∀ c ∈ s, c < 0x110000 := fun c hc => isScalarValue_lt c (h c hc)
    have hne := encodeString_ne_nil s hs hlt
    have hall : (Typed.encodeString s).all Cookie.isCookieNameChar = true := by
      rw [List.all_eq_true]
      intro c hc
      rcases hmem s hlt c hc with ⟨n, hn, rfl⟩
      exact (base64Char_facts n hn).2.2.2.2.2.1
    simp [Cookie.validCookieName, hall, List.isEmpty_eq_false.mpr hne]

/-- C3 witness: the amended name-validation clause evaluated on a concrete
nonempty string. -/
theorem encodeString_cookieSafe_witness :
    Cookie.validCookieName (Typed.encodeString (strCodes "hi")) = true :=
  encodeString_cookieSafe.2.1 (strCodes "hi") (by decide) (by decide)
